import Mathlib

/-!
Verification of the iscc-metagen subject-category classifier and metadata
generator against its specification.

The Python modules `iscc_metagen/thema.py`, `iscc_metagen/main.py`,
`iscc_metagen/schema.py` and `iscc_metagen/settings.py` are shallowly
embedded below.  External collaborators (the structured-completion client,
PDF text extraction) are modelled as oracles supplied as explicit function
arguments; Python exceptions are modelled with `Except`/`Option`; the
unbounded Python recursion and `while` loops are modelled with an explicit
fuel argument, where exhausting any amount of fuel models non-termination
(or CPython's `RecursionError` for the recursive descent).
-/

set_option autoImplicit false

namespace MetaGen

/-- Model of Python's `str.isalpha` on a single character, exact for all code
points below `0x100` (ASCII letters plus the Latin-1 letters, including
`ª`, `µ`, `º` and excluding `×` and `÷`).  Code points at or above `0x100`
are not modelled and are mapped to `false`; every theorem below that relies
on this function either uses only characters below `0x100` or restricts its
inputs to ASCII. -/
def pyIsAlphaChar (c : Char) : Bool :=
  let n := c.toNat
  (0x41 ≤ n && n ≤ 0x5A) || (0x61 ≤ n && n ≤ 0x7A) ||
  n == 0xAA || n == 0xB5 || n == 0xBA ||
  (0xC0 ≤ n && n ≤ 0xD6) || (0xD8 ≤ n && n ≤ 0xF6) || (0xF8 ≤ n && n ≤ 0xFF)

/-- Model of Python's `str.isalpha`: true iff the string is non-empty and all
its characters are alphabetic. -/
def pyIsAlpha (s : String) : Bool :=
  !s.toList.isEmpty && s.toList.all pyIsAlphaChar

/-- Modelled from the spec: the regular expression `^[A-Za-z]$` used by the
spec (P2) to characterise root categories — exactly one character, and that
character is an ASCII letter (`A`-`Z` is 0x41-0x5A, `a`-`z` is 0x61-0x7A). -/
def matchesSingleAsciiLetter (s : String) : Bool :=
  s.length == 1 &&
    s.toList.all fun c =>
      (0x41 ≤ c.toNat && c.toNat ≤ 0x5A) || (0x61 ≤ c.toNat && c.toNat ≤ 0x7A)

/-- Embedding of `ThemaCode` (thema.py): one parsed taxonomy entry.  The
pydantic `BeforeValidator(str)` coercions are left implicit: all fields are
already strings here. -/
structure ThemaCode where
  category_code : String
  category_heading : String
  code_notes : String := ""
  parent_code : String := ""
  issue_number : String := ""
  modified : String := ""
  full_heading : String := ""
deriving DecidableEq, Repr

/-- Embedding of the `Literal["LOW", "MEDIUM", "HIGH"]` confidence values of
`ThemaSelection` (thema.py). -/
inductive Confidence where
  | LOW
  | MEDIUM
  | HIGH
deriving DecidableEq, Repr

/-- Embedding of `ThemaSelection` (thema.py): one category selection returned
by a structured-completion call. -/
structure ThemaSelection where
  reason : String
  category_code : String
  category_heading : String
  confidence : Confidence
deriving DecidableEq, Repr

/-- Embedding of `ThemaCategories` (thema.py): the response model of every
selector call, a list of selections validated to hold at most 3 items
(`max_items=3`). -/
structure ThemaCategories where
  categories : List ThemaSelection
deriving DecidableEq, Repr

/-- Embedding of the Python dict built by
`{code.category_code: code for code in codes}` followed by lookup: scanning
the list in order, a later entry with the same code overwrites an earlier
one, and lookup of an absent key yields `none`. -/
def dictOf (codes : List ThemaCode) (k : String) : Option ThemaCode :=
  codes.foldl (fun acc c => if c.category_code = k then some c else acc) none

/-- Embedding of the `full_heading` while-loop of `parse_thema_codes`
(thema.py lines 319-328): walk the parent chain collecting headings,
root-ancestor first, current node last.  The walk stops when the current
node has an empty `parent_code` or its parent code is absent from the dict
(`dict.get` returns a falsy `None`).  The Python loop has no cycle
detection; `fuel` bounds the number of hops, and a result of `none` means
the loop did not finish within `fuel` hops. -/
def full_heading_walk (d : String → Option ThemaCode) :
    Nat → ThemaCode → Option (List String)
  | 0, _ => none
  | fuel + 1, cur =>
    if cur.parent_code = "" then
      some [cur.category_heading]
    else
      match d cur.parent_code with
      | none => some [cur.category_heading]
      | some p => (full_heading_walk d fuel p).map (· ++ [cur.category_heading])

/-- Embedding of `parse_thema_codes` (thema.py): builds the code dict, then
populates `full_heading` for every entry by walking the parent chain and
joining the collected headings with `" / "`.  `none` means some entry's walk
did not finish within `fuel` hops (the Python function loops forever). -/
def parse_thema_codes (fuel : Nat) (entries : List ThemaCode) :
    Option (List ThemaCode) :=
  let d := dictOf entries
  entries.mapM fun c =>
    (full_heading_walk d fuel c).map fun hs =>
      { c with full_heading := String.intercalate " / " hs }

/-- Embedding of the `Thema` index (thema.py): it owns the parsed code list;
its dict `db` is derived from the list. -/
structure Thema where
  codes : List ThemaCode
deriving DecidableEq

/-- Embedding of `Thema.db` dict lookup (`self.db[code]`-style access also
goes through this map; absence is the `KeyError` case for `[]` access). -/
def Thema.db (t : Thema) (k : String) : Option ThemaCode :=
  dictOf t.codes k

/-- Embedding of `Thema.get` (thema.py): `self.db.get(category_code)`,
`none` when the code is absent. -/
def Thema.get (t : Thema) (k : String) : Option ThemaCode :=
  t.db k

/-- Embedding of `Thema.main_subjects` (thema.py): the codes whose
`category_code` has length 1 and satisfies Python's `str.isalpha`, kept in
load order. -/
def Thema.main_subjects (t : Thema) : List ThemaCode :=
  t.codes.filter fun c => c.category_code.length == 1 && pyIsAlpha c.category_code

/-- Embedding of `Thema.sub_categories` (thema.py): the codes whose
`parent_code` equals the parent's code and whose own code differs from it,
in load order. -/
def Thema.sub_categories (t : Thema) (parent : ThemaCode) : List ThemaCode :=
  t.codes.filter fun c =>
    c.parent_code == parent.category_code && c.category_code != parent.category_code

/-- Python exceptions raised by the embedded classifier code paths. -/
inductive PyErr where
  /-- `instructor` fails to validate the completion against the
  `ThemaCategories` schema (e.g. more than 3 items) and, after exhausting
  retries, raises — the spec's `GenerationFailure`. -/
  | validationError
  /-- `thema.get(code)` returned `None` and the candidate-logging loop of
  `select_categories` dereferenced `.full_heading` on it. -/
  | attributeError
  /-- `thema.db[code]` subscript access on an absent key in
  `select_subcategories`. -/
  | keyError
  /-- CPython recursion-limit overflow, modelling exhaustion of the fuel of
  the unboundedly recursive `select_subcategories`. -/
  | recursionError
deriving DecidableEq, Repr

/-- Model of the structured-completion capability as seen by
`predict_categories_recursive`: for the `n`-th completion call made during
one classification request (numbered from 0 in call order), the raw list of
selections the capability would finally settle on, together with the cost it
reports for that call (`none` when no cost is reported).  The code under
verification never reads the cost. -/
def Oracle : Type :=
  Nat → List ThemaSelection × Option ℚ

/-- Embedding of the inner function `select_categories` of
`predict_categories_recursive` (thema.py lines 158-182).  The completion
call returns the `n`-th oracle response validated against the
`ThemaCategories` schema (at most 3 items).  The debug-logging loop then
evaluates `thema.get(cat.category_code).full_heading` for every returned
selection, which raises `AttributeError` as soon as some returned code is
absent from the index.  On success it returns the selections and the next
call number. -/
def select_categories (t : Thema) (o : Oracle) (_candidates : List ThemaCode)
    (n : Nat) : Except PyErr (List ThemaSelection × Nat) :=
  let raw := (o n).1
  if raw.length > 3 then
    .error .validationError
  else if raw.all (fun cat => (t.get cat.category_code).isSome) then
    .ok (raw, n + 1)
  else
    .error .attributeError

/-- Embedding of the inner function `select_subcategories` of
`predict_categories_recursive` (thema.py lines 184-198): look the parent's
node up with `thema.db[...]` (a `KeyError` if absent), stop with `[]` when
it has no children, otherwise run the selector over the children; an empty
selection stops the branch, otherwise keep only the first selection and
recurse into it.  Returns the chain of selections below the parent together
with the next call number. -/
def select_subcategories (t : Thema) (o : Oracle) :
    Nat → ThemaSelection → Nat → Except PyErr (List ThemaSelection × Nat)
  | 0, _, _ => .error .recursionError
  | fuel + 1, parent, n =>
    match t.db parent.category_code with
    | none => .error .keyError
    | some pnode =>
      let subcategories := t.sub_categories pnode
      if subcategories.isEmpty then
        .ok ([], n)
      else
        match select_categories t o subcategories n with
        | .error e => .error e
        | .ok (selected, n1) =>
          match selected with
          | [] => .ok ([], n1)
          | s0 :: _ =>
            match select_subcategories t o fuel s0 n1 with
            | .error e => .error e
            | .ok (deeper, n2) => .ok (s0 :: deeper, n2)

/-- Embedding of the `for category in top_level_categories` loop of
`predict_categories_recursive` (thema.py lines 203-205): for each top-level
selection, in order, compute its branch `[category] + select_subcategories
(category)` and keep the branch's last element (the deepest selection). -/
def process_branches (t : Thema) (o : Oracle) (fuel : Nat) :
    List ThemaSelection → Nat → Except PyErr (List ThemaSelection × Nat)
  | [], n => .ok ([], n)
  | c :: rest, n =>
    match select_subcategories t o fuel c n with
    | .error e => .error e
    | .ok (subs, n1) =>
      match process_branches t o fuel rest n1 with
      | .error e => .error e
      | .ok (others, n2) => .ok (subs.getLastD c :: others, n2)

/-- Embedding of `predict_categories_recursive` (thema.py lines 146-207),
additionally returning the total number of completion calls made: the
top-level selector call over `main_subjects`, then one branch per top-level
selection, then the result truncated to the first 4 entries. -/
def predict_inner (t : Thema) (o : Oracle) (fuel : Nat) :
    Except PyErr (ThemaCategories × Nat) :=
  match select_categories t o t.main_subjects 0 with
  | .error e => .error e
  | .ok (top, n) =>
    match process_branches t o fuel top n with
    | .error e => .error e
    | .ok (final, n1) => .ok (⟨final.take 4⟩, n1)

/-- Embedding of `predict_categories_recursive` (thema.py): the value the
Python function actually returns (the call count is internal). -/
def predict_categories_recursive (t : Thema) (o : Oracle) (fuel : Nat) :
    Except PyErr ThemaCategories :=
  (predict_inner t o fuel).map (·.1)

/-- Modelled from the spec: the `CategoryResult` record of §3 — the spec's
claimed final output shape `{selections, total_cost}`.  No such type exists
in the source; `predict_categories_recursive` returns a `ThemaCategories`. -/
structure CategoryResult where
  selections : List ThemaSelection
  total_cost : ℚ
deriving DecidableEq, Repr

/-- Modelled from the spec: the total cost the spec (§4.4 step 5) demands —
the sum of the reported per-call costs of the first `calls` completion
calls, a `none` cost contributing 0. -/
def spec_total_cost (o : Oracle) (calls : Nat) : ℚ :=
  (List.range calls).foldl (fun acc i => acc + ((o i).2.getD 0)) 0

/-- Embedding of `Contributor` (schema.py). -/
structure Contributor where
  name : String
  role : String
deriving DecidableEq, Repr

/-- Embedding of `BookISBN` (schema.py); the `ISBN` format validation lives
in the external validation capability and is not re-modelled. -/
structure BookISBN where
  isbn : String
  edition : Option String
deriving DecidableEq, Repr

/-- Embedding of `BookMetadata` (schema.py).  Field-format validators
(`HttpUrl`, `LanguageAlpha2`, keyword-count bounds, year bounds) belong to
the external structured-validation capability; here the fields are the
plain carried values.  `model` and `response_cost` are the provenance
fields with their schema defaults `""` and `0.0` (costs as exact
rationals). -/
structure BookMetadata where
  title : String
  subtitle : Option String
  description : String
  keywords : List String
  publisher : Option String
  publisher_website : Option String
  year_published : Option Int
  language : String
  contributors : Option (List Contributor)
  isbns : Option (List BookISBN)
  model : String := ""
  response_cost : ℚ := 0
deriving DecidableEq, Repr

/-- Embedding of the fields of `MetaGenSettings` (settings.py) relevant to
metadata generation, with their declared defaults (`instructor_mode` is
kept as its literal name). -/
structure MetaGenSettings where
  litellm_model_name : String := "ollama/qwen2.5:7b-instruct-q8_0"
  fastembed_model_name : String := "nomic-ai/nomic-embed-text-v1.5-Q"
  instructor_mode : String := "TOOLS"
  max_retries : Int := 3
  ollama_num_ctx : Int := 8192
  ollama_num_gpu : Int := 100
  front_pages : Int := 8
  mid_pages : Int := 3
  back_pages : Int := 3
deriving DecidableEq, Repr

/-- Embedding of the process-wide `mg_opts = MetaGenSettings()` instance
(settings.py) with all defaults (no environment overrides). -/
def mg_opts : MetaGenSettings := {}

/-- Embedding of Python's `x or default` on an optional string argument:
`None` and the empty string (the falsy strings) fall back to the default. -/
def pyOrStr (x : Option String) (d : String) : String :=
  match x with
  | none => d
  | some s => if s = "" then d else s

/-- Embedding of Python's `x or default` on an optional integer argument:
`None` and `0` (the falsy ints) fall back to the default. -/
def pyOrInt (x : Option Int) (d : Int) : Int :=
  match x with
  | none => d
  | some k => if k = 0 then d else k

/-- Model of the structured-completion capability used by
`generate_metadata`: given the resolved model name, retry budget and input
text, either fail (`none`, a `GenerationFailure` after exhausting retries)
or return the schema-validated `BookMetadata` together with the model name
reported by the raw response (`model_response["model"]`) and the reported
cost (`model_response._hidden_params["response_cost"]`, `none` when the
client reports no cost). -/
def MetaCap : Type :=
  String → Int → String → Option (BookMetadata × String × Option ℚ)

/-- Embedding of the stamping step of `generate_metadata` (main.py lines
52-55): set `metadata.model` from the response, then overwrite
`metadata.response_cost` only when the reported cost is not `None`. -/
def stamp_metadata (m : BookMetadata) (rm : String) (cost : Option ℚ) :
    BookMetadata :=
  let m1 := { m with model := rm }
  match cost with
  | none => m1
  | some c => { m1 with response_cost := c }

/-- Embedding of `generate_metadata` (main.py lines 28-56): resolve the
`model` and `max_retries` overrides with Python `or`-fallback against the
settings, make the single structured-completion call, and stamp the result
with the response's model identity and reported cost. -/
def generate_metadata (cap : MetaCap) (text : String) (model : Option String)
    (max_retries : Option Int) (opts : MetaGenSettings) : Option BookMetadata :=
  let m := pyOrStr model opts.litellm_model_name
  let r := pyOrInt max_retries opts.max_retries
  (cap m r text).map fun x => stamp_metadata x.1 x.2.1 x.2.2

/-! Concrete taxonomies, selections and oracles used as counterexamples and
witnesses. -/

/-- Root entry with a given code and heading, no parent. -/
def mkRoot (c h : String) : ThemaCode :=
  { category_code := c, category_heading := h }

/-- Selection of a given code, as the completion capability would return. -/
def mkSel (c h : String) : ThemaSelection :=
  { reason := "fits", category_code := c, category_heading := h,
    confidence := .HIGH }

/-- Root category `A`. -/
def nodeA : ThemaCode := mkRoot "A" "The Arts"

/-- Child `AB` of `A`. -/
def nodeAB : ThemaCode :=
  { category_code := "AB", category_heading := "The arts: general topics",
    parent_code := "A" }

/-- Taxonomy with the single root `A`. -/
def tA : Thema := ⟨[nodeA]⟩

/-- Taxonomy with root `A` and its child `AB`. -/
def tAB : Thema := ⟨[nodeA, nodeAB]⟩

/-- Selection of root `A`. -/
def selA : ThemaSelection := mkSel "A" "The Arts"

/-- Selection of child `AB`. -/
def selAB : ThemaSelection := mkSel "AB" "The arts: general topics"

/-- Hallucinated selection: code `Z` is absent from every taxonomy used
here. -/
def selZ : ThemaSelection := mkSel "Z" "Nonexistent"

/-- Oracle whose every call answers `[selA]` and reports no cost. -/
def oCost0 : Oracle := fun _ => ([selA], none)

/-- Oracle whose every call answers `[selA]` and reports cost 1. -/
def oCost1 : Oracle := fun _ => ([selA], some 1)

/-- Oracle whose every call answers with the hallucinated selection. -/
def oZ : Oracle := fun _ => ([selZ], none)

/-- Oracle answering `[selA]` at the top-level call and `[]` at every later
call. -/
def oEmptyAfterA : Oracle := fun n => if n = 0 then ([selA], none) else ([], none)

/-- Six root categories `A` to `F`. -/
def roots6 : List ThemaCode :=
  [mkRoot "A" "HA", mkRoot "B" "HB", mkRoot "C" "HC",
   mkRoot "D" "HD", mkRoot "E" "HE", mkRoot "F" "HF"]

/-- Taxonomy with six independent root categories and no children. -/
def t6 : Thema := ⟨roots6⟩

/-- Six non-empty top-level selections, one per root of `t6`. -/
def sels6 : List ThemaSelection :=
  [mkSel "A" "HA", mkSel "B" "HB", mkSel "C" "HC",
   mkSel "D" "HD", mkSel "E" "HE", mkSel "F" "HF"]

/-- Oracle whose top-level call answers with six selections. -/
def o6 : Oracle := fun _ => (sels6, none)

/-- Entry `A` whose parent is `B` — half of a parent cycle. -/
def cycA : ThemaCode :=
  { category_code := "A", category_heading := "HA", parent_code := "B" }

/-- Entry `B` whose parent is `A` — the other half of the cycle. -/
def cycB : ThemaCode :=
  { category_code := "B", category_heading := "HB", parent_code := "A" }

/-- A taxonomy source with a cyclic parent chain `A → B → A`. -/
def cycEntries : List ThemaCode := [cycA, cycB]

/-- First of two entries sharing the duplicate code `A`. -/
def dupA1 : ThemaCode := mkRoot "A" "H1"

/-- Second of two entries sharing the duplicate code `A`. -/
def dupA2 : ThemaCode := mkRoot "A" "H2"

/-- A taxonomy source with an unresolvable structural duplicate code. -/
def dupEntries : List ThemaCode := [dupA1, dupA2]

/-- Entry whose single-character code `Ö` (U+00D6) satisfies Python's
`str.isalpha` but does not match `^[A-Za-z]$`. -/
def nodeUml : ThemaCode := mkRoot "Ö" "Umlaut letter"

/-- Taxonomy containing only the `Ö` entry. -/
def tUml : Thema := ⟨[nodeUml]⟩

/-- The taxonomy `{A, AB, B, B1, C}` of spec property P2. -/
def exP2 : Thema :=
  ⟨[mkRoot "A" "HA",
    { category_code := "AB", category_heading := "HAB", parent_code := "A" },
    mkRoot "B" "HB",
    { category_code := "B1", category_heading := "HB1", parent_code := "B" },
    mkRoot "C" "HC"]⟩

/-- A concrete validated metadata object as the capability would return it,
with the provenance fields still at their schema defaults. -/
def mdW : BookMetadata :=
  { title := "T", subtitle := none, description := "D",
    keywords := ["k1", "k2", "k3"], publisher := some "P",
    publisher_website := none, year_published := some 2020,
    language := "en", contributors := none, isbns := none }

/-- A capability that always succeeds, reports the resolved model name
prefixed with `served-` and a cost of 2. -/
def capW : MetaCap := fun m _ _ => some (mdW, "served-" ++ m, some 2)

/-- A capability that always succeeds and reports no cost. -/
def capNoCost : MetaCap := fun m _ _ => some (mdW, "served-" ++ m, none)

/-! Supporting lemmas. -/

/-- A successful selector call returns exactly the oracle's raw response,
advances the call counter by one, and its response passed the
`ThemaCategories` validation (at most 3 items). -/
theorem select_categories_ok {t : Thema} {o : Oracle}
    {cand : List ThemaCode} {sel : List ThemaSelection} {n m : Nat}
    (h : select_categories t o cand n = .ok (sel, m)) :
    sel = (o n).1 ∧ m = n + 1 ∧ sel.length ≤ 3 := by
  unfold select_categories at h
  dsimp only at h
  split at h
  · cases h
  · split at h
    · simp only [Except.ok.injEq, Prod.mk.injEq] at h
      obtain ⟨h1, h2⟩ := h
      subst h1; subst h2
      refine ⟨rfl, rfl, ?_⟩
      omega
    · cases h

/-- The selector call depends on the oracle only through the selections of
its `n`-th response, not through the reported cost. -/
theorem select_categories_fst_congr {t : Thema} {o o2 : Oracle}
    {cand : List ThemaCode} {n : Nat} (h : (o n).1 = (o2 n).1) :
    select_categories t o cand n = select_categories t o2 cand n := by
  unfold select_categories
  rw [h]

/-- The descent below one selection depends on the oracle only through the
selection lists of its responses, never through the reported costs. -/
theorem select_subcategories_fst_congr {t : Thema} {o o2 : Oracle}
    (h : ∀ k, (o k).1 = (o2 k).1) :
    ∀ (fuel : Nat) (s : ThemaSelection) (n : Nat),
      select_subcategories t o fuel s n = select_subcategories t o2 fuel s n := by
  intro fuel
  induction fuel with
  | zero => intro s n; rfl
  | succ fuel ih =>
    intro s n
    simp only [select_subcategories]
    cases hdb : t.db s.category_code with
    | none => rfl
    | some pnode =>
      cases hempty : (t.sub_categories pnode).isEmpty with
      | true => simp [hempty]
      | false =>
        simp only [hempty, Bool.false_eq_true, if_false]
        have hsc : select_categories t o (t.sub_categories pnode) n =
            select_categories t o2 (t.sub_categories pnode) n :=
          select_categories_fst_congr (h n)
        rw [hsc]
        cases hr : select_categories t o2 (t.sub_categories pnode) n with
        | error e => rfl
        | ok p =>
          obtain ⟨selected, n1⟩ := p
          cases selected with
          | nil => rfl
          | cons s0 tail =>
            dsimp only
            rw [ih s0 n1]

/-- The branch loop depends on the oracle only through the selection lists
of its responses. -/
theorem process_branches_fst_congr {t : Thema} {o o2 : Oracle} {fuel : Nat}
    (h : ∀ k, (o k).1 = (o2 k).1) :
    ∀ (l : List ThemaSelection) (n : Nat),
      process_branches t o fuel l n = process_branches t o2 fuel l n := by
  intro l
  induction l with
  | nil => intro n; rfl
  | cons c rest ih =>
    intro n
    simp only [process_branches]
    rw [select_subcategories_fst_congr h fuel c n]
    cases hr : select_subcategories t o2 fuel c n with
    | error e => rfl
    | ok p =>
      obtain ⟨subs, n1⟩ := p
      dsimp only
      rw [ih n1]

/-- The whole recursive engine depends on the oracle only through the
selection lists of its responses. -/
theorem predict_inner_fst_congr {t : Thema} {o o2 : Oracle} {fuel : Nat}
    (h : ∀ k, (o k).1 = (o2 k).1) :
    predict_inner t o fuel = predict_inner t o2 fuel := by
  unfold predict_inner
  have hsc : select_categories t o t.main_subjects 0 =
      select_categories t o2 t.main_subjects 0 :=
    select_categories_fst_congr (h 0)
  rw [hsc]
  cases hr : select_categories t o2 t.main_subjects 0 with
  | error e => rfl
  | ok p =>
    obtain ⟨top, n⟩ := p
    dsimp only
    rw [process_branches_fst_congr h top n]

/-- A successful branch loop returns one deepest selection per input
branch. -/
theorem process_branches_length {t : Thema} {o : Oracle} {fuel : Nat} :
    ∀ (l : List ThemaSelection) (n : Nat) (res : List ThemaSelection) (n1 : Nat),
      process_branches t o fuel l n = .ok (res, n1) → res.length = l.length := by
  intro l
  induction l with
  | nil =>
    intro n res n1 h
    simp only [process_branches, Except.ok.injEq, Prod.mk.injEq] at h
    rw [← h.1]
  | cons c rest ih =>
    intro n res n1 h
    simp only [process_branches] at h
    cases hs : select_subcategories t o fuel c n with
    | error e => rw [hs] at h; cases h
    | ok p =>
      obtain ⟨subs, m⟩ := p
      rw [hs] at h
      dsimp only at h
      cases hp : process_branches t o fuel rest m with
      | error e => rw [hp] at h; cases h
      | ok q =>
        obtain ⟨others, m1⟩ := q
        rw [hp] at h
        simp only [Except.ok.injEq, Prod.mk.injEq] at h
        rw [← h.1]
        simp [ih m others m1 hp]

/-- The descent below one selection consults the oracle only at call numbers
at or above its starting call number. -/
theorem select_subcategories_congr_ge {t : Thema} {o o2 : Oracle} :
    ∀ (fuel : Nat) (s : ThemaSelection) (n : Nat),
      (∀ k, n ≤ k → o k = o2 k) →
      select_subcategories t o fuel s n = select_subcategories t o2 fuel s n := by
  intro fuel
  induction fuel with
  | zero => intro s n _; rfl
  | succ fuel ih =>
    intro s n h
    simp only [select_subcategories]
    cases hdb : t.db s.category_code with
    | none => rfl
    | some pnode =>
      cases hempty : (t.sub_categories pnode).isEmpty with
      | true => simp [hempty]
      | false =>
        simp only [hempty, Bool.false_eq_true, if_false]
        have hsc : select_categories t o (t.sub_categories pnode) n =
            select_categories t o2 (t.sub_categories pnode) n :=
          select_categories_fst_congr (by rw [h n (Nat.le_refl n)])
        rw [hsc]
        cases hr : select_categories t o2 (t.sub_categories pnode) n with
        | error e => rfl
        | ok p =>
          obtain ⟨selected, n1⟩ := p
          have hn1 : n1 = n + 1 := (select_categories_ok hr).2.1
          cases selected with
          | nil => rfl
          | cons s0 tail =>
            dsimp only
            rw [ih s0 n1 (fun k hk => h k (by omega))]

/-- A successful `mapM` over `Option` preserves the list length. -/
theorem mapM_option_length {a b : Type} (f : a → Option b) :
    ∀ (l : List a) (res : List b), l.mapM f = some res → res.length = l.length := by
  intro l
  induction l with
  | nil =>
    intro res h
    rw [List.mapM_nil] at h
    cases h
    rfl
  | cons x l ih =>
    intro res h
    rw [List.mapM_cons] at h
    cases hf : f x with
    | none => rw [hf] at h; cases h
    | some y =>
      rw [hf] at h
      cases hm : l.mapM f with
      | none => rw [hm] at h; cases h
      | some ys =>
        rw [hm] at h
        have h2 : some (y :: ys) = some res := h
        cases h2
        simp [ih ys hm]

/-- Scanning a code list left to right with last-match-wins overwrite
computes the first match of the reversed list, falling back to the initial
accumulator. -/
theorem foldl_dict_eq_find_last :
    ∀ (l : List ThemaCode) (acc : Option ThemaCode) (k : String),
      l.foldl (fun acc c => if c.category_code = k then some c else acc) acc =
        match l.reverse.find? (fun c => c.category_code == k) with
        | some c => some c
        | none => acc := by
  intro l
  induction l with
  | nil => intro acc k; rfl
  | cons c l ih =>
    intro acc k
    rw [List.foldl_cons, ih, List.reverse_cons]
    cases hf : l.reverse.find? (fun c2 => c2.category_code == k) with
    | some d =>
      have ha : (l.reverse ++ [c]).find? (fun c2 => c2.category_code == k) = some d := by
        rw [List.find?_append, hf]; rfl
      rw [ha]
    | none =>
      have ha : (l.reverse ++ [c]).find? (fun c2 => c2.category_code == k) =
          [c].find? (fun c2 => c2.category_code == k) := by
        rw [List.find?_append, hf]; rfl
      rw [ha]
      by_cases hc : c.category_code = k
      · simp [List.find?, hc]
      · have hb : (c.category_code == k) = false := by simp [hc]
        simp [List.find?, hb]
        intro h2
        exact absurd h2 hc

/-- The Python dict built from the code list maps a key to the LAST entry
carrying it: a duplicate code silently overwrites the earlier entry. -/
theorem dictOf_eq_find_last (entries : List ThemaCode) (k : String) :
    dictOf entries k = entries.reverse.find? (fun c => c.category_code == k) := by
  rw [dictOf, foldl_dict_eq_find_last]
  cases entries.reverse.find? (fun c => c.category_code == k) <;> rfl

/-- Below code point 128, Python's `str.isalpha` on a character coincides
with the ASCII-letter ranges of `^[A-Za-z]$`. -/
theorem pyIsAlphaChar_ascii {c : Char} (h : c.toNat < 128) :
    pyIsAlphaChar c =
      ((0x41 ≤ c.toNat && c.toNat ≤ 0x5A) || (0x61 ≤ c.toNat && c.toNat ≤ 0x7A)) := by
  unfold pyIsAlphaChar
  dsimp only
  have h1 : (c.toNat == 0xAA) = false := by simp; omega
  have h2 : (c.toNat == 0xB5) = false := by simp; omega
  have h3 : (c.toNat == 0xBA) = false := by simp; omega
  have h4 : decide (0xC0 ≤ c.toNat) = false := by simp; omega
  have h5 : decide (0xD8 ≤ c.toNat) = false := by simp; omega
  have h6 : decide (0xF8 ≤ c.toNat) = false := by simp; omega
  rw [h1, h2, h3, h4, h5, h6]
  simp

/-- Pointwise equal boolean predicates give equal `List.all` results. -/
theorem list_all_congr {a : Type} {p q : a → Bool} :
    ∀ l : List a, (∀ x, x ∈ l → p x = q x) → l.all p = l.all q := by
  intro l
  induction l with
  | nil => intro _; rfl
  | cons x l ih =>
    intro h
    simp only [List.all_cons]
    rw [h x (by simp), ih (fun y hy => h y (by simp [hy]))]

/-- On strings whose characters are all ASCII, the root predicate of
`main_subjects` (single character and Python-alphabetic) coincides with the
spec's regular expression `^[A-Za-z]$`. -/
theorem roots_pred_ascii {s : String} (h : ∀ ch, ch ∈ s.toList → ch.toNat < 128) :
    (s.length == 1 && pyIsAlpha s) = matchesSingleAsciiLetter s := by
  unfold pyIsAlpha matchesSingleAsciiLetter
  by_cases hlen : s.length = 1
  · have hl : (s.length == 1) = true := by simp [hlen]
    rw [hl]
    simp only [Bool.true_and]
    cases hsl : s.toList with
    | nil =>
      exfalso
      have h0 : s.length = 0 := by
        rw [show s.length = s.toList.length from rfl, hsl]
        rfl
      omega
    | cons ch rest =>
      simp only [List.isEmpty_cons, Bool.not_false, Bool.true_and]
      apply list_all_congr
      intro x hx
      refine pyIsAlphaChar_ascii (h x ?_)
      rw [hsl]
      exact hx
  · have hl : (s.length == 1) = false := by simp [hlen]
    rw [hl]
    simp

/-- From either entry of the cyclic taxonomy, the `full_heading` walk
exhausts any amount of fuel: the Python while-loop never terminates. -/
theorem cyc_walk_none :
    ∀ fuel, full_heading_walk (dictOf cycEntries) fuel cycA = none ∧
      full_heading_walk (dictOf cycEntries) fuel cycB = none := by
  intro fuel
  induction fuel with
  | zero => exact ⟨rfl, rfl⟩
  | succ fuel ih =>
    constructor
    · have h : full_heading_walk (dictOf cycEntries) (fuel + 1) cycA =
          (full_heading_walk (dictOf cycEntries) fuel cycB).map (· ++ ["HA"]) := rfl
      rw [h, ih.2]
      rfl
    · have h : full_heading_walk (dictOf cycEntries) (fuel + 1) cycB =
          (full_heading_walk (dictOf cycEntries) fuel cycA).map (· ++ ["HB"]) := rfl
      rw [h, ih.1]
      rfl

/-! Claim theorems. -/

/-- C1 (counterexample): the value returned by
`predict_categories_recursive` carries no total-cost information at all — no
function of the returned `ThemaCategories` can equal the sum of the per-call
reported costs, because two oracles answering identically but reporting
different costs produce identical return values while their cost sums
differ (0 versus 1 on the single-root taxonomy `tA`). -/
theorem C1_no_total_cost_counterexample :
    ¬ ∃ f : ThemaCategories → ℚ, ∀ o : Oracle,
      match predict_inner tA o 1 with
      | .ok (r, calls) => f r = spec_total_cost o calls
      | .error _ => True := by
  rintro ⟨f, hf⟩
  have h0 := hf oCost0
  have h1 := hf oCost1
  have e0 : predict_inner tA oCost0 1 = .ok (⟨[selA]⟩, 1) := rfl
  have e1 : predict_inner tA oCost1 1 = .ok (⟨[selA]⟩, 1) := rfl
  rw [e0] at h0
  rw [e1] at h1
  dsimp only at h0 h1
  have c0 : spec_total_cost oCost0 1 = 0 := by
    simp [spec_total_cost, List.range_succ, oCost0]
  have c1 : spec_total_cost oCost1 1 = 1 := by
    simp [spec_total_cost, List.range_succ, oCost1]
  rw [c0] at h0
  rw [c1] at h1
  rw [h0] at h1
  exact absurd h1 (by norm_num)

/-- C1 (amended): `predict_categories_recursive` returns only the truncated
selections; per-call costs are neither accumulated nor returned — the result
is unchanged under arbitrary changes to the reported costs. -/
theorem C1_amended_selections_only (t : Thema) (o o2 : Oracle) (fuel : Nat)
    (h : ∀ k, (o k).1 = (o2 k).1) :
    predict_categories_recursive t o fuel = predict_categories_recursive t o2 fuel := by
  unfold predict_categories_recursive
  rw [predict_inner_fst_congr h]

/-- C1 (witness): the cost-irrelevance theorem applied to the single-root
taxonomy and two oracles differing only in reported cost. -/
theorem C1_amended_selections_only_witness :
    predict_categories_recursive tA oCost0 1 = predict_categories_recursive tA oCost1 1 :=
  C1_amended_selections_only tA oCost0 oCost1 1 (fun _ => rfl)

/-- C2: on the cyclic taxonomy `A → B → A`, `parse_thema_codes` exhausts
every amount of fuel — the Python `full_heading` while-loop runs forever and
no `DataIntegrityError` is ever raised — while on the acyclic two-node
taxonomy the same parse finishes within 2 hops and fills the full
headings. -/
theorem C2_cycle_loops_forever :
    (∀ fuel, parse_thema_codes fuel cycEntries = none) ∧
    parse_thema_codes 2 [nodeA, nodeAB] =
      some [{ nodeA with full_heading := "The Arts" },
            { nodeAB with full_heading := "The Arts / The arts: general topics" }] := by
  constructor
  · intro fuel
    have hA := (cyc_walk_none fuel).1
    simp only [cycEntries] at hA
    simp [parse_thema_codes, cycEntries, List.mapM, List.mapM.loop, hA]
  · rfl

/-- C3: when the completion capability returns a selection whose category
code `Z` is absent from the taxonomy index, the lookup yields `None` and the
recursive descent crashes with an `AttributeError` while logging the
candidate (dereferencing `.full_heading` on `None`) instead of warning and
skipping. -/
theorem C3_hallucinated_code_crashes :
    tA.get "Z" = none ∧
    predict_categories_recursive tA oZ 5 = .error .attributeError :=
  ⟨rfl, rfl⟩

/-- C7 (counterexample): on a taxonomy whose single entry has the
one-character code `Ö`, `main_subjects` returns that entry although its code
does not match `^[A-Za-z]$` — Python's `str.isalpha` accepts non-ASCII
letters, so the root enumeration is not exactly the regex filter. -/
theorem C7_root_selection_counterexample :
    tUml.main_subjects ≠
      tUml.codes.filter (fun c => matchesSingleAsciiLetter c.category_code) := by
  decide

/-- C7 (amended): `main_subjects` returns exactly the entries whose code has
length 1 and satisfies Python's `str.isalpha`, in load order; restricted to
taxonomies whose codes are ASCII this is exactly the `^[A-Za-z]$` filter of
the claim, in load order (filter preserves the order of `codes`). -/
theorem C7_amended_ascii_roots (t : Thema)
    (h : ∀ c, c ∈ t.codes → ∀ ch, ch ∈ c.category_code.toList → ch.toNat < 128) :
    t.main_subjects = t.codes.filter (fun c => matchesSingleAsciiLetter c.category_code) := by
  unfold Thema.main_subjects
  apply List.filter_congr
  intro c hc
  exact roots_pred_ascii (h c hc)

/-- C7 (witness): on the spec's P2 taxonomy `{A, AB, B, B1, C}` (all ASCII)
the amended theorem applies, and the roots are exactly `{A, B, C}` in load
order. -/
theorem C7_amended_ascii_roots_witness :
    exP2.main_subjects = exP2.codes.filter (fun c => matchesSingleAsciiLetter c.category_code) ∧
    exP2.main_subjects = [mkRoot "A" "HA", mkRoot "B" "HB", mkRoot "C" "HC"] :=
  ⟨C7_amended_ascii_roots exP2 (by decide), by decide⟩

/-- C9 (counterexample): a taxonomy source with two entries sharing the code
`A` parses successfully — no `DataIntegrityError` is raised at load time —
and the lookup dict silently maps `A` to the second entry. -/
theorem C9_duplicate_counterexample :
    parse_thema_codes 1 dupEntries =
      some [{ dupA1 with full_heading := "H1" },
            { dupA2 with full_heading := "H2" }] ∧
    dictOf dupEntries "A" = some dupA2 :=
  ⟨rfl, rfl⟩

/-- C9 (amended): loading performs no duplicate detection: a successful
parse keeps one entry per input entry (duplicates included), and the lookup
index maps every code to the LAST entry carrying it in load order, silently
shadowing earlier duplicates; classification is then served over this
data. -/
theorem C9_amended_duplicates_kept :
    (∀ (entries : List ThemaCode) (fuel : Nat) (res : List ThemaCode),
        parse_thema_codes fuel entries = some res → res.length = entries.length) ∧
    (∀ (entries : List ThemaCode) (k : String),
        dictOf entries k = entries.reverse.find? (fun c => c.category_code == k)) := by
  constructor
  · intro entries fuel res h
    unfold parse_thema_codes at h
    exact mapM_option_length _ entries res h
  · intro entries k
    exact dictOf_eq_find_last entries k

/-- C9 (witness): the amended theorem applied to the concrete
duplicate-code source. -/
theorem C9_amended_duplicates_kept_witness :
    (∃ res, parse_thema_codes 1 dupEntries = some res ∧ res.length = dupEntries.length) ∧
    dictOf dupEntries "A" = dupEntries.reverse.find? (fun c => c.category_code == "A") := by
  constructor
  · refine ⟨[{ dupA1 with full_heading := "H1" }, { dupA2 with full_heading := "H2" }], rfl, ?_⟩
    exact C9_amended_duplicates_kept.1 dupEntries 1 _ rfl
  · exact C9_amended_duplicates_kept.2 dupEntries "A"

/-- Oracle for the C6 witness: the call at index 0 selects `AB` (no
alternates, no cost), later calls select nothing. -/
def oW6 : Oracle := fun n => if n = 0 then ([selAB], none) else ([], none)

/-- Variant oracle for the C6 witness: call 0 returns the same top-ranked
selection `AB` but a different alternate tail and cost. -/
def oW6b : Oracle := fun n => if n = 0 then ([selAB, selA], some 1) else ([], none)

/-- C4 (counterexample): a completion response with six non-empty top-level
selections fails the `ThemaCategories` schema validation (`max_items=3`), so
the classification request errors out instead of succeeding with the first
four branches. -/
theorem C4_six_branches_counterexample :
    (o6 0).1 = sels6 ∧ sels6.length = 6 ∧
    predict_categories_recursive t6 o6 3 = .error .validationError :=
  ⟨rfl, rfl, rfl⟩

/-- C4 (amended): after the top-level branches are traversed to completion,
the engine returns one deepest selection per top-level branch, in branch
order, truncated to the first 4 — and because each selector response is
validated to at most 3 selections, the result has exactly as many entries
as the top-level response and never more than 3 (the cap at 4 never
truncates). -/
theorem C4_amended_cap (t : Thema) (o : Oracle) (fuel : Nat)
    (r : ThemaCategories) (m : Nat)
    (h : predict_inner t o fuel = .ok (r, m)) :
    r.categories.length = ((o 0).1).length ∧ r.categories.length ≤ 3 := by
  unfold predict_inner at h
  cases hsel : select_categories t o t.main_subjects 0 with
  | error e => rw [hsel] at h; cases h
  | ok p =>
    obtain ⟨top, n⟩ := p
    rw [hsel] at h
    dsimp only at h
    obtain ⟨htop, hn, hlen⟩ := select_categories_ok hsel
    cases hpb : process_branches t o fuel top n with
    | error e => rw [hpb] at h; cases h
    | ok q =>
      obtain ⟨final, n1⟩ := q
      rw [hpb] at h
      simp only [Except.ok.injEq, Prod.mk.injEq] at h
      obtain ⟨hr, _⟩ := h
      have hfl : final.length = top.length := process_branches_length top n final n1 hpb
      rw [← hr]
      constructor
      · simp only [List.length_take, hfl, ← htop]
        omega
      · simp only [List.length_take, hfl]
        omega

/-- C4 (witness): the amended theorem applied to the single-root taxonomy,
where the one top-level selection yields one returned selection. -/
theorem C4_amended_cap_witness :
    (⟨[selA]⟩ : ThemaCategories).categories.length = ((oCost0 0).1).length ∧
    (⟨[selA]⟩ : ThemaCategories).categories.length ≤ 3 :=
  C4_amended_cap tA oCost0 1 ⟨[selA]⟩ 1 rfl

/-- C5: when the top-level call returns `[X]` (with `X` resolvable in the
index) and the child-level call for `X` returns `[]`, the request returns
exactly `[X]` and the branch issues no further calls: the total call count
is 1 when `X` has no children (the child-level call is never issued) and 2
when the child-level call was issued and returned empty. -/
theorem C5_empty_selection_halts_branch (t : Thema) (o : Oracle) (fuel : Nat)
    (X : ThemaSelection) (nX : ThemaCode)
    (hdb : t.db X.category_code = some nX)
    (h0 : (o 0).1 = [X]) (h1 : (o 1).1 = []) :
    predict_inner t o (fuel + 1) =
      .ok (⟨[X]⟩, if (t.sub_categories nX).isEmpty then 1 else 2) := by
  have hget : (t.get X.category_code).isSome = true := by
    unfold Thema.get
    rw [hdb]
    rfl
  have hsel0 : select_categories t o t.main_subjects 0 = .ok ([X], 1) := by
    unfold select_categories
    dsimp only
    rw [h0]
    simp [hget]
  have hsub : select_subcategories t o (fuel + 1) X 1 =
      .ok ([], if (t.sub_categories nX).isEmpty then 1 else 2) := by
    simp only [select_subcategories]
    rw [hdb]
    dsimp only
    cases hempty : (t.sub_categories nX).isEmpty with
    | true => simp
    | false =>
      have hsel1 : select_categories t o (t.sub_categories nX) 1 = .ok ([], 2) := by
        unfold select_categories
        dsimp only
        rw [h1]
        simp
      simp [hsel1]
  unfold predict_inner
  rw [hsel0]
  dsimp only
  simp only [process_branches]
  rw [hsub]
  dsimp only
  simp [process_branches]

/-- C5 (witness): on the taxonomy `{A, AB}` with the oracle answering
`[selA]` then `[]`, the request returns `[selA]` after exactly 2 calls. -/
theorem C5_empty_selection_halts_branch_witness :
    predict_inner tAB oEmptyAfterA 1 = .ok (⟨[selA]⟩, 2) := by
  have h := C5_empty_selection_halts_branch tAB oEmptyAfterA 0 selA nodeA rfl rfl rfl
  exact h.trans rfl

/-- C6: at a descent step whose selector call returns the non-empty ranked
list `s0 :: rest`, the branch continues as `s0` followed by the descent into
`s0` alone — and the alternates are discarded: an oracle returning the same
top-ranked `s0` with a different alternate tail (and cost) at that call
yields the identical branch result. -/
theorem C6_first_selection_descent (t : Thema) (o o2 : Oracle) (fuel n : Nat)
    (parent s0 : ThemaSelection) (pn : ThemaCode)
    (rest rest2 : List ThemaSelection) (c c2 : Option ℚ)
    (hdb : t.db parent.category_code = some pn)
    (hne : (t.sub_categories pn).isEmpty = false)
    (ho : o n = (s0 :: rest, c))
    (ho2 : o2 n = (s0 :: rest2, c2))
    (hagree : ∀ k, k ≠ n → o2 k = o k)
    (hlen : (s0 :: rest).length ≤ 3)
    (hlen2 : (s0 :: rest2).length ≤ 3)
    (hres : ((s0 :: rest).all fun cat => (t.get cat.category_code).isSome) = true)
    (hres2 : ((s0 :: rest2).all fun cat => (t.get cat.category_code).isSome) = true) :
    select_subcategories t o (fuel + 1) parent n =
      Except.map (fun p => (s0 :: p.1, p.2)) (select_subcategories t o fuel s0 (n + 1)) ∧
    select_subcategories t o2 (fuel + 1) parent n =
      select_subcategories t o (fuel + 1) parent n := by
  have hsc : select_categories t o (t.sub_categories pn) n = .ok (s0 :: rest, n + 1) := by
    unfold select_categories
    dsimp only
    rw [show (o n).1 = s0 :: rest by rw [ho]]
    rw [if_neg (by omega), if_pos hres]
  have hsc2 : select_categories t o2 (t.sub_categories pn) n = .ok (s0 :: rest2, n + 1) := by
    unfold select_categories
    dsimp only
    rw [show (o2 n).1 = s0 :: rest2 by rw [ho2]]
    rw [if_neg (by omega), if_pos hres2]
  constructor
  · simp only [select_subcategories]
    rw [hdb]
    dsimp only
    rw [hne]
    simp only [Bool.false_eq_true, if_false]
    rw [hsc]
    dsimp only
    cases hrec : select_subcategories t o fuel s0 (n + 1) with
    | error e => rfl
    | ok p =>
      obtain ⟨d, n2⟩ := p
      rfl
  · simp only [select_subcategories]
    rw [hdb]
    dsimp only
    rw [hne]
    simp only [Bool.false_eq_true, if_false]
    rw [hsc, hsc2]
    dsimp only
    rw [select_subcategories_congr_ge fuel s0 (n + 1) (fun k hk => hagree k (by omega))]

/-- C6 (witness): on the taxonomy `{A, AB}`, with the call at index 0
returning `[selAB]` for one oracle and `[selAB, selA]` (different alternate
and cost) for the other, the branch below `selA` equals `selAB` consed onto
the descent below `selAB`, identically for both oracles. -/
theorem C6_first_selection_descent_witness :
    (select_subcategories tAB oW6 2 selA 0 =
      Except.map (fun p => (selAB :: p.1, p.2)) (select_subcategories tAB oW6 1 selAB 1)) ∧
    select_subcategories tAB oW6b 2 selA 0 = select_subcategories tAB oW6 2 selA 0 :=
  C6_first_selection_descent tAB oW6 oW6b 1 0 selA selAB nodeA [] [selA] none (some 1)
    rfl rfl rfl rfl (fun k hk => by simp [oW6, oW6b, hk]) (by decide) (by decide)
    (by decide) (by decide)

/-- C8: when the capability call succeeds, `generate_metadata` returns the
validated object stamped with the response's model identity; the cost field
is overwritten only when a non-null cost is reported (a null cost leaves the
field as it was, i.e. the schema default 0.0), and resetting the two
provenance fields recovers the capability's object unchanged — no other
field is touched by the stamping step. -/
theorem C8_stamping_frame (cap : MetaCap) (text : String) (mo : Option String)
    (mr : Option Int) (opts : MetaGenSettings) (md : BookMetadata) (rm : String)
    (cost : Option ℚ)
    (h : cap (pyOrStr mo opts.litellm_model_name) (pyOrInt mr opts.max_retries) text =
      some (md, rm, cost)) :
    generate_metadata cap text mo mr opts = some (stamp_metadata md rm cost) ∧
    (stamp_metadata md rm cost).model = rm ∧
    (∀ q, cost = some q → (stamp_metadata md rm cost).response_cost = q) ∧
    (cost = none → (stamp_metadata md rm cost).response_cost = md.response_cost) ∧
    { stamp_metadata md rm cost with
        model := md.model, response_cost := md.response_cost } = md := by
  refine ⟨?_, ?_, ?_, ?_, ?_⟩
  · unfold generate_metadata
    dsimp only
    rw [h]
    rfl
  · cases cost <;> rfl
  · intro q hq
    subst hq
    rfl
  · intro hq
    subst hq
    rfl
  · cases cost <;> rfl

/-- C8 (witness): the stamping theorem applied to a cost-reporting
capability and to a costless capability; with a null cost the stamped field
still holds the schema default 0. -/
theorem C8_stamping_frame_witness :
    generate_metadata capW "txt" none none mg_opts =
      some (stamp_metadata mdW ("served-" ++ mg_opts.litellm_model_name) (some 2)) ∧
    generate_metadata capNoCost "txt" none none mg_opts =
      some (stamp_metadata mdW ("served-" ++ mg_opts.litellm_model_name) none) ∧
    (stamp_metadata mdW ("served-" ++ mg_opts.litellm_model_name) none).response_cost = 0 := by
  refine ⟨?_, ?_, ?_⟩
  · exact (C8_stamping_frame capW "txt" none none mg_opts mdW
      ("served-" ++ mg_opts.litellm_model_name) (some 2) rfl).1
  · exact (C8_stamping_frame capNoCost "txt" none none mg_opts mdW
      ("served-" ++ mg_opts.litellm_model_name) none rfl).1
  · exact ((C8_stamping_frame capNoCost "txt" none none mg_opts mdW
      ("served-" ++ mg_opts.litellm_model_name) none rfl).2.2.2.1 rfl).trans rfl

/-- C10: the `model` and `max_retries` overrides of `generate_metadata` fall
back to the configured defaults for every falsy value, not only for an
absent one: the empty-string model and the zero retry count behave exactly
like passing nothing, while truthy values are passed through to the
capability unchanged. -/
theorem C10_falsy_fallback (cap : MetaCap) (text : String) (opts : MetaGenSettings) :
    generate_metadata cap text (some "") (some 0) opts =
      generate_metadata cap text none none opts ∧
    generate_metadata cap text none none opts =
      (cap opts.litellm_model_name opts.max_retries text).map
        (fun x => stamp_metadata x.1 x.2.1 x.2.2) ∧
    (∀ (s : String) (k : Int), s ≠ "" → k ≠ 0 →
      generate_metadata cap text (some s) (some k) opts =
        (cap s k text).map (fun x => stamp_metadata x.1 x.2.1 x.2.2)) := by
  refine ⟨rfl, rfl, ?_⟩
  intro s k hs hk
  unfold generate_metadata pyOrStr pyOrInt
  dsimp only
  rw [if_neg hs, if_neg hk]

/-- C10 (witness): the fallback theorem applied to the default settings —
`model=""` with `max_retries=0` behaves like passing nothing, and a truthy
override reaches the capability unchanged. -/
theorem C10_falsy_fallback_witness :
    generate_metadata capW "t" (some "") (some 0) mg_opts =
      generate_metadata capW "t" none none mg_opts ∧
    generate_metadata capW "t" (some "gpt-4o") (some 2) mg_opts =
      (capW "gpt-4o" 2 "t").map (fun x => stamp_metadata x.1 x.2.1 x.2.2) := by
  constructor
  · exact (C10_falsy_fallback capW "t" mg_opts).1
  · exact (C10_falsy_fallback capW "t" mg_opts).2.2 "gpt-4o" 2 (by decide) (by decide)

end MetaGen
